import Mathlib

/-!
Verification of the change-tracking core of `pydantic-changedetect`
(`src/pydantic_changedetect/changedetect.py` and
`src/pydantic_changedetect/utils.py`), as a shallow embedding.

The Python value universe is modelled by `PyValue`.  The scalar kinds of the
`COMPARABLE_TYPES` whitelist are abstracted to `vNone`/`vInt`/`vStr`/`vBool`
(the remaining whitelisted kinds - float, Decimal, datetime, date, time,
timedelta - behave like these for every property below and are omitted from
the universe); `vOpaque` stands for an arbitrary object outside the
whitelist, with Python's default identity equality.  A pydantic model with
the `ChangeDetectionMixin` capability is `vModel`/`Model`, carrying the
declared fields (name and type annot.), the instance `__dict__` (an assoc
list; `model_construct` instances may lack declared keys), and the three
tracking collections `model_original`, `model_self_changed_fields`,
`model_changed_markers`.  Sets are lists with membership-based insertion;
dicts are assoc lists (at most one entry per key by construction, updates
via `aset`).
-/

namespace PydanticCD

/-- Type annotations, mirroring what `is_pydantic_change_detect_annotation`
in `utils.py` inspects: a concrete class (trackable or not), list/set/tuple
shapes (first type argument), dict/Mapping (second type argument), unions,
and opaque/unrecognised shapes. -/
inductive Ann where
  | aModel (trackable : Bool)
  | aScalar
  | aList (a : Ann)
  | aSet (a : Ann)
  | aTuple (a : Ann)
  | aDict (k v : Ann)
  | aUnion (args : List Ann)
  | aOpaque

mutual
/-- Equality of annotations (Python class identity on the annotation objects). -/
def annBeq : Ann → Ann → Bool
  | .aModel t, .aModel t' => t == t'
  | .aScalar, .aScalar => true
  | .aList a, .aList b => annBeq a b
  | .aSet a, .aSet b => annBeq a b
  | .aTuple a, .aTuple b => annBeq a b
  | .aDict k v, .aDict k' v' => annBeq k k' && annBeq v v'
  | .aUnion xs, .aUnion ys => annBeqList xs ys
  | .aOpaque, .aOpaque => true
  | _, _ => false

def annBeqList : List Ann → List Ann → Bool
  | [], [] => true
  | a :: as, b :: bs => annBeq a b && annBeqList as bs
  | _, _ => false
end

mutual
/-- Python runtime values relevant to the tracking core. -/
inductive PyValue where
  | vNone
  | vInt (n : Int)
  | vStr (s : String)
  | vBool (b : Bool)
  | vOpaque (id : Nat)
  | vList (xs : List PyValue)
  | vTuple (xs : List PyValue)
  | vSet (xs : List PyValue)
  | vDict (xs : List (PyValue × PyValue))
  | vModel (m : Model)

/-- A `ChangeDetectionMixin` instance: declared fields, `__dict__`, and the
three tracking collections. -/
inductive Model where
  | mk (fields : List (String × Ann)) (dict : List (String × PyValue))
       (original : List (String × PyValue)) (selfChanged : List String)
       (markers : List String)
end

def Model.fields : Model → List (String × Ann)
  | .mk f _ _ _ _ => f

def Model.dict : Model → List (String × PyValue)
  | .mk _ d _ _ _ => d

def Model.original : Model → List (String × PyValue)
  | .mk _ _ o _ _ => o

def Model.selfChanged : Model → List String
  | .mk _ _ _ s _ => s

def Model.markers : Model → List String
  | .mk _ _ _ _ ms => ms

/-- Assoc-list lookup (Python `d[k]` / `k in d`). -/
def alookup {α : Type} : List (String × α) → String → Option α
  | [], _ => none
  | (k, v) :: rest, n => if k = n then some v else alookup rest n

/-- Assoc-list update (Python `d[k] = v`): replace in place, else append.
Never duplicates a key, matching dict semantics. -/
def aset {α : Type} : List (String × α) → String → α → List (String × α)
  | [], n, v => [(n, v)]
  | (k, w) :: rest, n, v =>
      if k = n then (k, v) :: rest else (k, w) :: aset rest n v

/-- Python `set.add`: membership-based insertion. -/
def setAdd (l : List String) (s : String) : List String :=
  if s ∈ l then l else l ++ [s]

/-- Python dict merge `{**a, **b}`: keys of `a` in order, values overridden
by `b` where present, then keys only in `b` appended. -/
def dictMerge {α : Type} (a b : List (String × α)) : List (String × α) :=
  a.map (fun kv => (kv.1, ((alookup b kv.1).getD kv.2))) ++
    b.filter (fun kv => (alookup a kv.1).isNone)

/-- `f"{key}"` used for dict-key path segments in
`model_changed_fields_recursive`. -/
def pyKeyStr : PyValue → String
  | .vStr s => s
  | .vInt n => toString n
  | .vBool b => if b then "True" else "False"
  | .vNone => "None"
  | _ => "<object>"

mutual
/-- `ChangeDetectionMixin._model_value_is_comparable_type`: lists/sets/tuples
recurse into every element, dicts into every key and value; otherwise the
value must be `None` or an instance of the `COMPARABLE_TYPES` whitelist
(`vOpaque` is the one kind outside it; `vModel` is a `pydantic.BaseModel`). -/
def comparableType : PyValue → Bool
  | .vList xs => comparableTypeList xs
  | .vSet xs => comparableTypeList xs
  | .vTuple xs => comparableTypeList xs
  | .vDict xs => comparableTypePairs xs
  | .vNone => true
  | .vInt _ => true
  | .vStr _ => true
  | .vBool _ => true
  | .vModel _ => true
  | .vOpaque _ => false

def comparableTypeList : List PyValue → Bool
  | [] => true
  | x :: xs => comparableType x && comparableTypeList xs

def comparableTypePairs : List (PyValue × PyValue) → Bool
  | [] => true
  | kv :: xs => (comparableType kv.1 && comparableType kv.2) && comparableTypePairs xs
end

/-- Equality of declared-field tables (same class for pydantic `__eq__`). -/
def fieldsBeq (xs ys : List (String × Ann)) : Bool :=
  match xs, ys with
  | [], [] => true
  | kv :: as, kw :: bs => (kv.1 == kw.1 && annBeq kv.2 kw.2) && fieldsBeq as bs
  | _, _ => false

mutual
/-- Python `==` on the modelled values (`_model_value_is_actually_unchanged`
evaluates `value1 == value2`).  `vOpaque` uses default identity equality;
`bool` and `int` compare numerically as in Python; container equality is
pointwise (dict equality is modelled pointwise in insertion order); pydantic
model `__eq__` compares the class and `__dict__`, ignoring the tracking
state held in `__slots__`. -/
def pyEq (x y : PyValue) : Bool :=
  match x, y with
  | .vNone, .vNone => true
  | .vInt a, .vInt b => a == b
  | .vInt a, .vBool b => a == (if b then (1 : Int) else 0)
  | .vBool a, .vInt b => (if a then (1 : Int) else 0) == b
  | .vBool a, .vBool b => a == b
  | .vStr a, .vStr b => a == b
  | .vOpaque i, .vOpaque j => i == j
  | .vList a, .vList b => pyEqList a b
  | .vTuple a, .vTuple b => pyEqList a b
  | .vSet a, .vSet b => pyEqList a b
  | .vDict a, .vDict b => pyEqPairs a b
  | .vModel a, .vModel b => pyEqModel a b
  | _, _ => false
termination_by structural x

def pyEqList (xs ys : List PyValue) : Bool :=
  match xs, ys with
  | [], [] => true
  | a :: as, b :: bs => pyEq a b && pyEqList as bs
  | _, _ => false
termination_by structural xs

def pyEqPairs (xs ys : List (PyValue × PyValue)) : Bool :=
  match xs, ys with
  | [], [] => true
  | kv :: as, kw :: bs => (pyEq kv.1 kw.1 && pyEq kv.2 kw.2) && pyEqPairs as bs
  | _, _ => false
termination_by structural xs

def pyEqModel (x y : Model) : Bool :=
  match x, y with
  | .mk f d _ _ _, .mk f' d' _ _ _ => fieldsBeq f f' && pyEqStrPairs d d'
termination_by structural x

def pyEqStrPairs (xs ys : List (String × PyValue)) : Bool :=
  match xs, ys with
  | [], [] => true
  | kv :: as, kw :: bs => (kv.1 == kw.1 && pyEq kv.2 kw.2) && pyEqStrPairs as bs
  | _, _ => false
termination_by structural xs
end

/-- Python truthiness (`if field_value and ...`). -/
def truthy : PyValue → Bool
  | .vNone => false
  | .vInt n => n != 0
  | .vStr s => s != ""
  | .vBool b => b
  | .vOpaque _ => true
  | .vList xs => !xs.isEmpty
  | .vTuple xs => !xs.isEmpty
  | .vSet xs => !xs.isEmpty
  | .vDict xs => !xs.isEmpty
  | .vModel _ => true

mutual
/-- `is_pydantic_change_detect_annotation` from `utils.py`: a trackable
class, or list/set/tuple of one (first type argument), or dict/Mapping with
trackable values (second type argument), or a union with some trackable
member; everything else (including plain classes and opaque shapes) is
`false`. -/
def isCDAnn : Ann → Bool
  | .aModel t => t
  | .aList a => isCDAnn a
  | .aSet a => isCDAnn a
  | .aTuple a => isCDAnn a
  | .aDict _ v => isCDAnn v
  | .aUnion args => isCDAnnAny args
  | .aScalar => false
  | .aOpaque => false

def isCDAnnAny : List Ann → Bool
  | [] => false
  | a :: rest => isCDAnn a || isCDAnnAny rest
end

/-! Structural size functions, used only as termination measures for the
aggregation functions below (the derived `sizeOf` of the mutual inductive
family is not executable, so a hand-rolled size is used instead). -/

mutual
def psize : PyValue → Nat
  | .vNone => 1
  | .vInt _ => 1
  | .vStr _ => 1
  | .vBool _ => 1
  | .vOpaque _ => 1
  | .vList xs => 1 + plsize xs
  | .vTuple xs => 1 + plsize xs
  | .vSet xs => 1 + plsize xs
  | .vDict xs => 1 + ppsize xs
  | .vModel m => 1 + msize m

def msize : Model → Nat
  | .mk f d _ _ _ => 1 + f.length + spsize d

def plsize : List PyValue → Nat
  | [] => 0
  | v :: rest => 1 + psize v + plsize rest

def ppsize : List (PyValue × PyValue) → Nat
  | [] => 0
  | kv :: rest => 1 + psize kv.1 + psize kv.2 + ppsize rest

def spsize : List (String × PyValue) → Nat
  | [] => 0
  | kv :: rest => 1 + psize kv.2 + spsize rest
end

theorem alookup_mem {α : Type} {d : List (String × α)} {n : String} {v : α}
    (h : alookup d n = some v) : (n, v) ∈ d := by
  induction d with
  | nil => simp [alookup] at h
  | cons kv rest ih =>
    obtain ⟨k, w⟩ := kv
    by_cases hk : k = n
    · subst hk
      simp [alookup] at h
      subst h
      exact List.mem_cons_self _ _
    · simp [alookup, hk] at h
      exact List.mem_cons_of_mem _ (ih h)

theorem alookup_psize {d : List (String × PyValue)} {n : String} {v : PyValue}
    (h : alookup d n = some v) : psize v < spsize d := by
  induction d with
  | nil => simp [alookup] at h
  | cons kv rest ih =>
    obtain ⟨k, w⟩ := kv
    by_cases hk : k = n
    · subst hk
      simp [alookup] at h
      subst h
      simp [spsize]
      omega
    · simp [alookup, hk] at h
      have := ih h
      simp [spsize]
      omega

theorem psize_pos (v : PyValue) : 0 < psize v := by
  cases v <;> simp [psize]

theorem plsize_map_snd_le (xs : List (PyValue × PyValue)) :
    plsize (xs.map (fun p => p.2)) ≤ ppsize xs := by
  induction xs with
  | nil => simp [plsize, ppsize]
  | cons kv rest ih =>
    have := psize_pos kv.1
    simp only [List.map_cons, plsize, ppsize]
    omega

theorem plsize_cons (v : PyValue) (rest : List PyValue) :
    plsize (v :: rest) = 1 + psize v + plsize rest := rfl

theorem spsize_cons (k : String) (v : PyValue) (rest : List (String × PyValue)) :
    spsize ((k, v) :: rest) = 1 + psize v + spsize rest := rfl

theorem psize_vModel (m : Model) : psize (.vModel m) = 1 + msize m := rfl

theorem psize_vList (xs : List PyValue) : psize (.vList xs) = 1 + plsize xs := rfl

theorem psize_vTuple (xs : List PyValue) : psize (.vTuple xs) = 1 + plsize xs := rfl

theorem psize_vDict (xs : List (PyValue × PyValue)) : psize (.vDict xs) = 1 + ppsize xs := rfl

theorem list_scan_bound (xs : List PyValue) :
    8 * plsize xs < 8 * psize (.vList xs) + 4 := by
  rw [psize_vList]; omega

theorem tuple_scan_bound (xs : List PyValue) :
    8 * plsize xs < 8 * psize (.vTuple xs) + 4 := by
  rw [psize_vTuple]; omega

theorem dict_scan_bound (xs : List (PyValue × PyValue)) :
    8 * plsize (xs.map (fun p => p.2)) < 8 * psize (.vDict xs) + 4 := by
  have := plsize_map_snd_le xs; rw [psize_vDict]; omega

theorem model_scan_bound (m : Model) :
    8 * msize m + 2 < 8 * psize (.vModel m) + 3 := by
  rw [psize_vModel]; omega

/-- Index/key path segments of `enumerate(field_value)` used by
`model_changed_fields_recursive` for list/tuple values. -/
def enumSegs (xs : List PyValue) : List (String × PyValue) :=
  (xs.enum).map (fun p => (toString p.1, p.2))

theorem spsize_map {α : Type} (g : α → String) (l : List (α × PyValue)) :
    spsize (l.map (fun p => (g p.1, p.2))) = plsize (l.map (fun p => p.2)) := by
  induction l with
  | nil => rfl
  | cons kv rest ih => simp [spsize, plsize, ih]

theorem spsize_enumSegs (xs : List PyValue) : spsize (enumSegs xs) = plsize xs := by
  have h2 : List.map (fun p : Nat × PyValue => p.2) xs.enum = xs := List.enum_map_snd xs
  rw [enumSegs, spsize_map (fun n : Nat => toString n) xs.enum, h2]

/-- Add every nested changed field, dotted under the given field name
(`changed_fields.add(f"{field_name}.{changed_field}")` loops). -/
def addDotted (acc : List String) (pre : String) (cs : List String) : List String :=
  cs.foldl (fun a c => setAdd a (pre ++ "." ++ c)) acc

mutual
/-- `model_has_changed`: true when `model_self_changed_fields` or
`model_changed_markers` is non-empty, else when `model_changed_fields` is. -/
def mHasChanged (m : Model) : Bool :=
  !m.selfChanged.isEmpty || !m.markers.isEmpty || !(mChangedFields m).isEmpty
termination_by (8 * msize m + 2)
decreasing_by
  all_goals omega

/-- `model_changed_fields`: start from a copy of `model_self_changed_fields`
and scan the declared fields (the loop body is `cfGo`). -/
def mChangedFields (m : Model) : List String :=
  cfGo m.dict m.fields m.selfChanged
termination_by (8 * msize m + 1)
decreasing_by
  all_goals (cases m; simp only [msize, Model.dict, Model.fields]; omega)

/-- Loop of `model_changed_fields` over `model_fields.items()`: a field
missing from `__dict__` is skipped (support for `model_construct`
instances); otherwise the field name is added when the value triggers the
changed scan. -/
def cfGo (d : List (String × PyValue)) (fs : List (String × Ann))
    (acc : List String) : List String :=
  match fs with
  | [] => acc
  | (name, a) :: rest =>
    match h : alookup d name with
    | none => cfGo d rest acc
    | some fv =>
        cfGo d rest (if fieldTriggers a fv then setAdd acc name else acc)
termination_by (8 * (spsize d + fs.length))
decreasing_by
  all_goals
    (rw [List.length_cons]
     try have hx := alookup_psize h
     omega)

/-- Per-field scan of `model_changed_fields`: a changed
`ChangeDetectionMixin` value triggers directly; else, when the value is
truthy and the annot. may contain trackables, a list/tuple scans elements, a
dict scans values, and any other shape is skipped. -/
def fieldTriggers (a : Ann) (fv : PyValue) : Bool :=
  if vmChanged fv then true
  else if truthy fv && isCDAnn a then
    match fv with
    | .vList xs => anyChangedElem xs
    | .vTuple xs => anyChangedElem xs
    | .vDict xs => anyChangedElem (xs.map (fun p => p.2))
    | _ => false
  else false
termination_by (8 * psize fv + 4)
decreasing_by
  all_goals first
    | exact list_scan_bound _
    | exact tuple_scan_bound _
    | exact dict_scan_bound _
    | omega

/-- `isinstance(value, ChangeDetectionMixin) and value.model_has_changed`. -/
def vmChanged (v : PyValue) : Bool :=
  match v with
  | .vModel m => mHasChanged m
  | _ => false
termination_by (8 * psize v + 3)
decreasing_by
  all_goals first
    | exact model_scan_bound _
    | omega

/-- Short-circuit scan for a changed trackable element. -/
def anyChangedElem (xs : List PyValue) : Bool :=
  match xs with
  | [] => false
  | x :: rest => vmChanged x || anyChangedElem rest
termination_by (8 * plsize xs)
decreasing_by
  all_goals (rw [plsize_cons]; omega)
end

mutual
/-- `model_changed_fields_recursive`: same field loop as
`model_changed_fields` but collecting dotted paths.  Unlike the plain
version the loop reads `self.__dict__[field_name]` without a presence
check, so a declared field missing from `__dict__` raises `KeyError`,
modelled by `none`. -/
def mChangedRec (m : Model) : Option (List String) :=
  crGo m.dict m.fields m.selfChanged
termination_by (8 * msize m + 1)
decreasing_by
  all_goals (cases m; simp only [msize, Model.dict, Model.fields]; omega)

/-- Loop of `model_changed_fields_recursive` over `model_fields.items()`.
The if/elif chain of the source is compiled into a match on the value: a
changed trackable value contributes its own recursive set dotted under the
field name plus the field name itself; a truthy list/tuple (or dict) under
a trackable-capable annot. scans its elements (or values) with
index (or key) path segments; any other shape is skipped. -/
def crGo (d : List (String × PyValue)) (fs : List (String × Ann))
    (acc : List String) : Option (List String) :=
  match fs with
  | [] => some acc
  | (name, a) :: rest =>
    match h : alookup d name with
    | none => none
    | some fv =>
      match fv with
      | .vModel cm =>
        if mHasChanged cm then
          match mChangedRec cm with
          | none => none
          | some cs => crGo d rest (addDotted (setAdd acc name) name cs)
        else crGo d rest acc
      | .vList xs =>
        if truthy (.vList xs) && isCDAnn a then
          match crItems name (enumSegs xs) acc with
          | none => none
          | some acc2 => crGo d rest acc2
        else crGo d rest acc
      | .vTuple xs =>
        if truthy (.vTuple xs) && isCDAnn a then
          match crItems name (enumSegs xs) acc with
          | none => none
          | some acc2 => crGo d rest acc2
        else crGo d rest acc
      | .vDict xs =>
        if truthy (.vDict xs) && isCDAnn a then
          match crItems name (xs.map (fun kv => (pyKeyStr kv.1, kv.2))) acc with
          | none => none
          | some acc2 => crGo d rest acc2
        else crGo d rest acc
      | _ => crGo d rest acc
termination_by (8 * (spsize d + fs.length))
decreasing_by
  all_goals
    (rw [List.length_cons]
     try have hx := alookup_psize h
     try rw [psize_vModel] at hx
     try rw [psize_vList] at hx
     try rw [psize_vTuple] at hx
     try rw [psize_vDict] at hx
     try rw [spsize_enumSegs]
     try have h5 : spsize (xs.map (fun kv => (pyKeyStr kv.1, kv.2)))
       = plsize (xs.map (fun p => p.2)) := spsize_map (fun k : PyValue => pyKeyStr k) xs
     try have h6 := plsize_map_snd_le xs
     omega)

/-- Element loop of `model_changed_fields_recursive` for list/tuple/dict
values: for every changed trackable element, add its recursive entries
under `"<field>.<segment>."`, then `"<field>.<segment>"`, then the field
name itself. -/
def crItems (name : String) (items : List (String × PyValue))
    (acc : List String) : Option (List String) :=
  match items with
  | [] => some acc
  | (seg, iv) :: rest =>
    match iv with
    | .vModel cm =>
      if mHasChanged cm then
        match mChangedRec cm with
        | none => none
        | some cs =>
          crItems name rest
            (setAdd (setAdd (addDotted acc (name ++ "." ++ seg) cs)
              (name ++ "." ++ seg)) name)
      else crItems name rest acc
    | _ => crItems name rest acc
termination_by (8 * spsize items + 4)
decreasing_by
  all_goals
    (rw [spsize_cons]
     try rw [psize_vModel]
     omega)
end
/-! The state-changing operations of the tracking core. -/

/-- `model_reset_changed`: clear the three tracking collections. -/
def modelResetChanged (m : Model) : Model :=
  .mk m.fields m.dict [] [] []

/-- `__init__`: the validated constructor stores the validated field values
in `__dict__` (validation is the surrounding framework's and is modelled as
identity) and then resets the tracking state (`model_post_init` and
`__init__` both call `model_reset_changed`). -/
def modelInit (fields : List (String × Ann)) (kwargs : List (String × PyValue)) : Model :=
  .mk fields kwargs [] [] []

/-- `model_construct`: construction without validation; the provided values
(possibly lacking some declared fields) go into `__dict__` and
`model_reset_changed` is called on the result. -/
def modelConstruct (fields : List (String × Ann)) (values : List (String × PyValue)) : Model :=
  .mk fields values [] [] []

/-- `__setattr__` for a declared field.  Mirrors the source step by step:
capture the pre-write `__dict__` value when the name has no entry in
`model_original` yet (`none` models the `KeyError` when the field is absent
from `__dict__`); store the value; compare `original_update.get(name, None)`
with the post-storage value under the comparability policy; on a real
change, merge the captured entry into `model_original` and add the name to
`model_self_changed_fields`.  Writes to private attributes bypass all of
this in the source and writes to undeclared attributes are rejected by
pydantic before any tracking update; both are out of scope here (`none`). -/
def setattrFn (m : Model) (name : String) (value : PyValue) : Option Model :=
  if (alookup m.fields name).isNone then
    none
  else
    let oUpd? : Option (Option (String × PyValue)) :=
      if (alookup m.original name).isNone then
        match alookup m.dict name with
        | some prior => some (some (name, prior))
        | none => none
      else some none
    match oUpd? with
    | none => none
    | some oUpd =>
      let newDict := aset m.dict name value
      let originalValue := (oUpd.map (fun p => p.2)).getD .vNone
      let unchanged := comparableType originalValue && comparableType value &&
        pyEq originalValue value
      if unchanged then
        some (.mk m.fields newDict m.original m.selfChanged m.markers)
      else
        some (.mk m.fields newDict
          (match oUpd with
            | some kv => aset m.original kv.1 kv.2
            | none => m.original)
          (setAdd m.selfChanged name) m.markers)

/-- Errors of `model_set_changed`: `invalidArgs` is the `RuntimeError` for
an original override with several fields, `fieldNotFound` the
`AttributeError` for an undeclared name, `keyErr` the `KeyError` raised in
the mutation loop when a declared field has no `__dict__` entry. -/
inductive SetChangedErr where
  | invalidArgs
  | fieldNotFound (n : String)
  | keyErr (n : String)
deriving DecidableEq

/-- Mutation loop of `model_set_changed` (runs after both validations):
`model_original[name]` is assigned the current `__dict__` value or the
override, and the name is added to `model_self_changed_fields`. -/
def setChangedGo (m : Model) (names : List String) (orig : Option PyValue) :
    Except SetChangedErr Model :=
  match names with
  | [] => .ok m
  | n :: rest =>
    match orig with
    | none =>
      match alookup m.dict n with
      | none => .error (.keyErr n)
      | some cur =>
        setChangedGo
          (.mk m.fields m.dict (aset m.original n cur) (setAdd m.selfChanged n) m.markers)
          rest orig
    | some o =>
      setChangedGo
        (.mk m.fields m.dict (aset m.original n o) (setAdd m.selfChanged n) m.markers)
        rest orig

/-- `model_set_changed(*fields, original=...)`: first the `RuntimeError`
check (override supplied with more than one field), then the declared-field
check for every name in order, then the mutation loop. -/
def modelSetChanged (m : Model) (names : List String) (orig : Option PyValue) :
    Except SetChangedErr Model :=
  if orig.isSome && names.length > 1 then
    .error .invalidArgs
  else
    match names.find? (fun n => (alookup m.fields n).isNone) with
    | some bad => .error (.fieldNotFound bad)
    | none => setChangedGo m names orig

/-- `model_mark_changed`. -/
def modelMarkChanged (m : Model) (marker : String) : Model :=
  .mk m.fields m.dict m.original m.selfChanged (setAdd m.markers marker)

/-- `model_unmark_changed` (`set.discard`). -/
def modelUnmarkChanged (m : Model) (marker : String) : Model :=
  .mk m.fields m.dict m.original m.selfChanged (m.markers.filter (fun x => x ≠ marker))

/-- `model_has_changed_marker`. -/
def modelHasChangedMarker (m : Model) (marker : String) : Bool :=
  m.markers.contains marker

/-- `__copy__`: the cloned instance gets value copies of the three tracking
collections (reference aliasing is not representable in the embedding). -/
def copyFn (m : Model) : Model :=
  .mk m.fields m.dict m.original m.selfChanged m.markers

/-- `__deepcopy__`: same tracking-state treatment as `__copy__`. -/
def deepcopyFn (m : Model) : Model :=
  .mk m.fields m.dict m.original m.selfChanged m.markers

/-- The pickling state blob: the base state (`__dict__` and friends from
the base `__getstate__`, of which only `__dict__` is modelled) plus the
three tracking collections, each possibly missing when the blob was
produced by an older variant or by code that stripped them. -/
structure PickleState where
  dict : List (String × PyValue)
  original? : Option (List (String × PyValue))
  selfChanged? : Option (List String)
  markers? : Option (List String)

/-- `__getstate__`: base state extended with copies of the collections. -/
def getstateFn (m : Model) : PickleState :=
  ⟨m.dict, some m.original, some m.selfChanged, some m.markers⟩

/-- `__setstate__`: base restore, then each collection taken from the blob
when present, else defaulted to empty. -/
def setstateFn (fields : List (String × Ann)) (st : PickleState) : Model :=
  .mk fields st.dict (st.original?.getD []) (st.selfChanged?.getD [])
    (st.markers?.getD [])

mutual
/-- `model_restore_value` (classmethod): lists map the restore over the
elements, dicts over the values (keys unchanged), a changed trackable
object is replaced by its restored original, everything else (including
tuples and unchanged trackables) is returned unchanged. -/
def modelRestoreValue (v : PyValue) : PyValue :=
  match v with
  | .vList xs => .vList (restoreList xs)
  | .vDict xs => .vDict (restorePairs xs)
  | .vModel cm =>
    if mHasChanged cm then .vModel (modelRestoreOriginal cm) else .vModel cm
  | other => other
termination_by (4 * psize v)
decreasing_by
  all_goals ((first | rw [psize_vList] | rw [psize_vDict] | rw [psize_vModel]); omega)

def restoreList (xs : List PyValue) : List PyValue :=
  match xs with
  | [] => []
  | x :: rest => modelRestoreValue x :: restoreList rest
termination_by (4 * plsize xs + 2)
decreasing_by
  all_goals (rw [plsize_cons]; omega)

def restorePairs (xs : List (PyValue × PyValue)) : List (PyValue × PyValue) :=
  match xs with
  | [] => []
  | (k, v) :: rest => (k, modelRestoreValue v) :: restorePairs rest
termination_by (4 * ppsize xs + 2)
decreasing_by
  all_goals (simp only [ppsize]; have := psize_pos k; omega)

def restoreDictVals (d : List (String × PyValue)) : List (String × PyValue) :=
  match d with
  | [] => []
  | (k, v) :: rest => (k, modelRestoreValue v) :: restoreDictVals rest
termination_by (4 * spsize d + 2)
decreasing_by
  all_goals (rw [spsize_cons]; omega)

/-- `model_restore_original`: apply `model_restore_value` to every current
`__dict__` value, override with every `model_original` entry
(`{**restored_values, **self.model_original}`) and construct a fresh
instance from the merged mapping (fresh construction resets tracking). -/
def modelRestoreOriginal (m : Model) : Model :=
  .mk m.fields (dictMerge (restoreDictVals m.dict) m.original) [] [] []
termination_by (4 * msize m + 3)
decreasing_by
  all_goals (cases m; simp only [msize, Model.dict]; omega)
end

/-- `model_get_original_field_value`: `AttributeError` for an undeclared
name (modelled as `none`); else the stored original when present, else the
restored current value (missing `__dict__` entry raises, also `none`). -/
def modelGetOriginalFieldValue (m : Model) (name : String) : Option PyValue :=
  if (alookup m.fields name).isNone then
    none
  else
    match alookup m.original name with
    | some v => some v
    | none =>
      match alookup m.dict name with
      | some cur => some (modelRestoreValue cur)
      | none => none

/-! Shared lemmas about the assoc-list and set primitives. -/

theorem alookup_aset {α : Type} (l : List (String × α)) (k : String) (v : α)
    (n : String) :
    alookup (aset l k v) n = if k = n then some v else alookup l n := by
  induction l with
  | nil => by_cases h : k = n <;> simp [aset, alookup, h]
  | cons kv rest ih =>
    obtain ⟨k', w⟩ := kv
    by_cases hk : k' = k
    · subst hk
      by_cases hn : k' = n <;> simp [aset, alookup, hn]
    · by_cases hn : k' = n
      · subst hn
        have : ¬k = k' := fun hh => hk hh.symm
        simp [aset, alookup, hk, this]
      · simp [aset, alookup, hk, hn, ih]

theorem mem_setAdd {l : List String} {s x : String} :
    x ∈ setAdd l s ↔ x ∈ l ∨ x = s := by
  by_cases h : s ∈ l
  · simp only [setAdd, if_pos h]
    constructor
    · exact Or.inl
    · rintro (hx | rfl)
      · exact hx
      · exact h
  · simp [setAdd, if_neg h]

theorem mem_aset {α : Type} {l : List (String × α)} {k : String} {v : α}
    {kv : String × α} : kv ∈ aset l k v → kv ∈ l ∨ kv = (k, v) := by
  induction l with
  | nil =>
    intro h
    simpa [aset] using h
  | cons kw rest ih =>
    obtain ⟨k', w⟩ := kw
    intro h
    by_cases hk : k' = k
    · subst hk
      simp only [aset, if_pos rfl] at h
      rcases List.mem_cons.mp h with h | h
      · exact Or.inr (by simpa using h)
      · exact Or.inl (List.mem_cons_of_mem _ h)
    · simp only [aset, if_neg hk] at h
      rcases List.mem_cons.mp h with h | h
      · exact Or.inl (h ▸ List.mem_cons_self _ _)
      · rcases ih h with h' | h'
        · exact Or.inl (List.mem_cons_of_mem _ h')
        · exact Or.inr h'

theorem alookup_append {α : Type} (l1 l2 : List (String × α)) (n : String) :
    alookup (l1 ++ l2) n =
      match alookup l1 n with
      | some v => some v
      | none => alookup l2 n := by
  induction l1 with
  | nil => simp [alookup]
  | cons kv rest ih =>
    obtain ⟨k, w⟩ := kv
    by_cases hk : k = n <;> simp [alookup, hk, ih]

theorem alookup_filter {α : Type} (l : List (String × α))
    (p : String × α → Bool) (n : String) (hp : ∀ v, p (n, v) = true) :
    alookup (l.filter p) n = alookup l n := by
  induction l with
  | nil => simp [alookup]
  | cons kv rest ih =>
    obtain ⟨k, w⟩ := kv
    by_cases hk : k = n
    · subst hk
      have := hp w
      simp [List.filter, this, alookup, ih]
    · by_cases hpk : p (k, w) = true
      · simp [List.filter, hpk, alookup, hk, ih]
      · have hpk2 : p (k, w) = false := by simpa using hpk
        simp [List.filter, hpk2, alookup, hk, ih]

theorem alookup_merge_map {α : Type} (a b : List (String × α)) (n : String) :
    alookup (a.map (fun kv => (kv.1, ((alookup b kv.1).getD kv.2)))) n
      = (alookup a n).map (fun w => (alookup b n).getD w) := by
  induction a with
  | nil => simp [alookup]
  | cons kv rest ih =>
    obtain ⟨k, w⟩ := kv
    by_cases hk : k = n
    · subst hk
      simp [alookup]
    · simp [alookup, hk, ih]

/-- Full characterisation of lookup in the Python merge `{**a, **b}`:
entries of `b` win, entries only in `a` survive. -/
theorem alookup_dictMerge {α : Type} (a b : List (String × α)) (n : String) :
    alookup (dictMerge a b) n =
      match alookup a n with
      | some w => some ((alookup b n).getD w)
      | none => alookup b n := by
  rw [dictMerge, alookup_append, alookup_merge_map]
  cases ha : alookup a n with
  | some w => simp
  | none =>
    have h0 : (Option.map (fun w => (alookup b n).getD w) (none : Option α)) = none := rfl
    rw [h0]
    exact alookup_filter b _ n (fun v => by simp [ha])

/-! Claim theorems. -/

/-- C7: for every tracking state, restoring from a snapshot of that state
reproduces an equivalent state (the three collections are equal by value,
and the base `__dict__` round-trips as well), and restoring a snapshot
that lacks any of the three collections defaults that collection to empty
instead of failing. -/
theorem C7_snapshot_restore_roundtrip :
    (∀ m : Model,
        (setstateFn m.fields (getstateFn m)).original = m.original ∧
        (setstateFn m.fields (getstateFn m)).selfChanged = m.selfChanged ∧
        (setstateFn m.fields (getstateFn m)).markers = m.markers ∧
        (setstateFn m.fields (getstateFn m)).dict = m.dict) ∧
    (∀ (fs : List (String × Ann)) (d : List (String × PyValue)),
        (setstateFn fs ⟨d, none, none, none⟩).original = [] ∧
        (setstateFn fs ⟨d, none, none, none⟩).selfChanged = [] ∧
        (setstateFn fs ⟨d, none, none, none⟩).markers = []) := by
  constructor
  · intro m
    simp [setstateFn, getstateFn, Model.original, Model.selfChanged, Model.markers,
      Model.dict]
  · intro fs d
    simp [setstateFn, Model.original, Model.selfChanged, Model.markers]

/-- C10: for an attribute write to a declared field whose name is already in
`model_original`, the suppression comparison uses `None` as the prior: the
write is suppressed exactly when the post-storage value is comparable and
equal to `None`; in all other cases the field is added to
`model_self_changed_fields`; `model_original` is left unchanged either way
(and the new value is stored). -/
theorem C10_prior_in_original_uses_none :
    ∀ (m : Model) (name : String) (v : PyValue),
      (alookup m.fields name).isSome = true →
      (alookup m.original name).isSome = true →
      ∃ m', setattrFn m name v = some m' ∧
        m'.original = m.original ∧
        m'.dict = aset m.dict name v ∧
        (if comparableType v && pyEq .vNone v
          then m'.selfChanged = m.selfChanged
          else m'.selfChanged = setAdd m.selfChanged name) := by
  intro m name v hf ho
  have hf' : ¬(alookup m.fields name).isNone = true := by
    simp [Option.isNone_iff_eq_none] at hf ⊢
    exact Option.isSome_iff_exists.mp hf |>.elim (fun a ha => by simp [ha])
  have ho' : ¬(alookup m.original name).isNone = true := by
    simp only [Option.isNone_iff_eq_none]
    intro hcon
    rw [hcon] at ho
    simp at ho
  by_cases hc : (comparableType v && pyEq .vNone v) = true
  · refine ⟨.mk m.fields (aset m.dict name v) m.original m.selfChanged m.markers, ?_, ?_, ?_, ?_⟩
    · simp only [setattrFn, if_neg hf', if_neg ho']
      have : (comparableType PyValue.vNone && comparableType v && pyEq PyValue.vNone v) = true := by
        simp only [comparableType, Bool.true_and]
        exact hc
      simp [this]
    · simp [Model.original]
    · simp [Model.dict]
    · simp [hc, Model.selfChanged]
  · refine ⟨.mk m.fields (aset m.dict name v) m.original (setAdd m.selfChanged name) m.markers, ?_, ?_, ?_, ?_⟩
    · simp only [setattrFn, if_neg hf', if_neg ho']
      have : (comparableType PyValue.vNone && comparableType v && pyEq PyValue.vNone v) = false := by
        simp only [comparableType, Bool.true_and]
        simpa using hc
      simp [this]
    · simp [Model.original]
    · simp [Model.dict]
    · simp [hc, Model.selfChanged]

/-- C10 witness: the theorem applied at a concrete state whose field `x`
already has an original entry; the re-write of a non-`None` value re-adds
the field and leaves the original entry alone. -/
theorem C10_w :
    ∃ m', setattrFn (Model.mk [("x", .aScalar)] [("x", .vInt 5)]
        [("x", .vInt 0)] ["x"] []) "x" (.vInt 7) = some m' ∧
      m'.original = (Model.mk [("x", .aScalar)] [("x", .vInt 5)]
        [("x", .vInt 0)] ["x"] []).original ∧
      m'.dict = aset (Model.mk [("x", .aScalar)] [("x", .vInt 5)]
        [("x", .vInt 0)] ["x"] []).dict "x" (.vInt 7) ∧
      (if comparableType (.vInt 7) && pyEq .vNone (.vInt 7)
        then m'.selfChanged = (Model.mk [("x", .aScalar)] [("x", .vInt 5)]
          [("x", .vInt 0)] ["x"] []).selfChanged
        else m'.selfChanged = setAdd (Model.mk [("x", .aScalar)] [("x", .vInt 5)]
          [("x", .vInt 0)] ["x"] []).selfChanged "x") :=
  C10_prior_in_original_uses_none
    (Model.mk [("x", .aScalar)] [("x", .vInt 5)] [("x", .vInt 0)] ["x"] [])
    "x" (.vInt 7) (by decide) (by decide)

/-- State used to refute C1 as stated: the field `x` is already present in
`model_original` (reachable through `__setstate__`) but not in
`model_self_changed_fields`. -/
def c1cexModel : Model :=
  .mk [("x", .aScalar)] [("x", .vInt 5)] [("x", .vInt 0)] [] []

/-- C1 counterexample: writing `x := 5` over the stored value `5` — both
sides comparable and structurally equal, so the claim as stated demands
that `model_self_changed_fields` stay unchanged — nevertheless adds `x` to
`model_self_changed_fields` (the code compares against `None`, not the
pre-write value, because `x` is already in `model_original`). -/
theorem C1_cex :
    comparableType (.vInt 5) = true ∧ pyEq (.vInt 5) (.vInt 5) = true ∧
    alookup c1cexModel.dict "x" = some (.vInt 5) ∧
    c1cexModel.selfChanged = [] ∧
    (setattrFn c1cexModel "x" (.vInt 5)).map Model.selfChanged = some ["x"] := by
  refine ⟨rfl, rfl, rfl, rfl, rfl⟩

/-- C1 (amended: restricted to writes where the field is not already in
`model_original`): if both the pre-write stored value and the post-storage
value are comparable and structurally equal, the write leaves
`model_original` and `model_self_changed_fields` unchanged; otherwise the
prior is committed into `model_original` and the field name is added to
`model_self_changed_fields`. -/
theorem C1_write_tracking :
    ∀ (m : Model) (name : String) (v prior : PyValue),
      (alookup m.fields name).isSome = true →
      alookup m.original name = none →
      alookup m.dict name = some prior →
      ∃ m', setattrFn m name v = some m' ∧
        m'.dict = aset m.dict name v ∧
        (if comparableType prior && comparableType v && pyEq prior v
          then m'.original = m.original ∧ m'.selfChanged = m.selfChanged
          else m'.original = aset m.original name prior ∧
            m'.selfChanged = setAdd m.selfChanged name) := by
  intro m name v prior hf ho hd
  have hf' : ¬(alookup m.fields name).isNone = true := by
    simp only [Option.isNone_iff_eq_none]
    intro hcon
    rw [hcon] at hf
    simp at hf
  have ho' : (alookup m.original name).isNone = true := by simp [ho]
  by_cases hc : (comparableType prior && comparableType v && pyEq prior v) = true
  · refine ⟨.mk m.fields (aset m.dict name v) m.original m.selfChanged m.markers, ?_, ?_, ?_⟩
    · simp only [setattrFn, if_neg hf', ho', if_pos rfl, hd]
      simp [hc]
    · simp [Model.dict]
    · simp [hc, Model.original, Model.selfChanged]
  · refine ⟨.mk m.fields (aset m.dict name v) (aset m.original name prior)
      (setAdd m.selfChanged name) m.markers, ?_, ?_, ?_⟩
    · simp only [setattrFn, if_neg hf', ho', if_pos rfl, hd]
      simp only [Bool.not_eq_true] at hc
      simp [hc]
    · simp [Model.dict]
    · simp [hc, Model.original, Model.selfChanged]

/-- C1 witness: the theorem applied to a freshly constructed instance with
`id = 1`, writing `2` (a real change) — the prior is committed and the
field marked changed. -/
theorem C1_w :
    ∃ m', setattrFn (modelInit [("id", .aScalar)] [("id", .vInt 1)]) "id" (.vInt 2) = some m' ∧
      m'.dict = aset (modelInit [("id", .aScalar)] [("id", .vInt 1)]).dict "id" (.vInt 2) ∧
      (if comparableType (.vInt 1) && comparableType (.vInt 2) && pyEq (.vInt 1) (.vInt 2)
        then m'.original = (modelInit [("id", .aScalar)] [("id", .vInt 1)]).original ∧
          m'.selfChanged = (modelInit [("id", .aScalar)] [("id", .vInt 1)]).selfChanged
        else m'.original = aset (modelInit [("id", .aScalar)] [("id", .vInt 1)]).original "id" (.vInt 1) ∧
          m'.selfChanged = setAdd (modelInit [("id", .aScalar)] [("id", .vInt 1)]).selfChanged "id") :=
  C1_write_tracking (modelInit [("id", .aScalar)] [("id", .vInt 1)]) "id"
    (.vInt 2) (.vInt 1) (by decide) rfl rfl

/-- What a successful attribute write can do to `model_original`: leave it
alone, or (only when the name had no entry yet) commit the pre-write value. -/
theorem setattrFn_original_char :
    ∀ (m : Model) (name : String) (v : PyValue) (m' : Model),
      setattrFn m name v = some m' →
      m'.original = m.original ∨
        ∃ prior, alookup m.original name = none ∧
          alookup m.dict name = some prior ∧
          m'.original = aset m.original name prior := by
  intro m name v m' h
  by_cases h1 : (alookup m.fields name).isNone = true
  · rw [setattrFn, if_pos h1] at h
    cases h
  · by_cases h2 : (alookup m.original name).isNone = true
    · cases h3 : alookup m.dict name with
      | none =>
        rw [setattrFn, if_neg h1] at h
        simp [h2, h3] at h
      | some prior =>
        rw [setattrFn, if_neg h1] at h
        simp only [h2, h3, if_true, if_pos] at h
        split at h
        · injection h with h4
          subst h4
          left
          simp [Model.original]
        · injection h with h4
          subst h4
          right
          exact ⟨prior, Option.isNone_iff_eq_none.mp h2, rfl, by simp [Model.original]⟩
    · have h2' : (alookup m.original name).isNone = false := by
        revert h2
        cases (alookup m.original name).isNone <;> simp
      rw [setattrFn, if_neg h1] at h
      simp only [h2', Bool.false_eq_true, if_false] at h
      split at h
      · injection h with h4
        subst h4
        left
        simp [Model.original]
      · injection h with h4
        subst h4
        left
        simp [Model.original]

/-- State used to refute C5 as stated: `x = 1` was captured by an earlier
write of this cycle (`model_original = {x: 1}`). -/
def c5cexModel : Model :=
  .mk [("x", .aScalar)] [("x", .vInt 2)] [("x", .vInt 1)] ["x"] []

/-- C5 counterexample: a later `model_set_changed("x", original=99)` of the
same cycle replaces the existing `model_original` entry (`1` becomes `99`),
refuting the claim that no later operation of the cycle replaces it. -/
theorem C5_cex :
    alookup c5cexModel.original "x" = some (.vInt 1) ∧
    modelSetChanged c5cexModel ["x"] (some (.vInt 99))
      = .ok (Model.mk [("x", .aScalar)] [("x", .vInt 2)]
          [("x", .vInt 99)] ["x"] []) :=
  ⟨rfl, rfl⟩

/-- C5 (amended): `model_original` holds at most one entry per field (it is
a dict), and first-capture-wins holds for attribute writes — once a field
has an entry, no later attribute write of the cycle replaces it.  An
explicit `model_set_changed` call, by contrast, overwrites the entry with
the override (or the current live value). -/
theorem C5_first_write_wins :
    (∀ (m : Model) (wname name : String) (v w : PyValue) (m' : Model),
        alookup m.original name = some w →
        setattrFn m wname v = some m' →
        alookup m'.original name = some w) ∧
    (∀ (m m' : Model) (n : String) (o : PyValue),
        modelSetChanged m [n] (some o) = .ok m' →
        alookup m'.original n = some o) := by
  constructor
  · intro m wname name v w m' hw hs
    rcases setattrFn_original_char m wname v m' hs with h | ⟨prior, hnone, _, hset⟩
    · rw [h]; exact hw
    · have hne : wname ≠ name := by
        intro he
        rw [he, hw] at hnone
        cases hnone
      rw [hset, alookup_aset, if_neg hne]
      exact hw
  · intro m m' n o h
    rw [modelSetChanged] at h
    by_cases hfind : (alookup m.fields n).isNone = true
    · simp [List.find?, hfind] at h
    · have hf2 : (alookup m.fields n).isNone = false := by
        revert hfind
        cases (alookup m.fields n).isNone <;> simp
      simp only [List.find?, hf2] at h
      have hgo : setChangedGo m [n] (some o)
          = .ok (Model.mk m.fields m.dict (aset m.original n o)
              (setAdd m.selfChanged n) m.markers) := rfl
      rw [hgo] at h
      injection h with h4
      subst h4
      simp [Model.original, alookup_aset]

/-- C5 witness: both parts applied at concrete inputs — a second write to
`x` does not replace the captured original, while an explicit
`model_set_changed` with an override does set it. -/
theorem C5_w :
    alookup ((Model.mk [("x", .aScalar)] [("x", .vInt 3)] [("x", .vInt 1)]
        ["x"] [])).original "x" = some (.vInt 1) ∧
    alookup ((Model.mk [("x", .aScalar)] [("x", .vInt 4)] [("x", .vInt 1)]
        ["x"] [])).original "x" = some (.vInt 1) ∧
    alookup ((Model.mk [("x", .aScalar)] [("x", .vInt 2)] [("x", .vInt 99)]
        ["x"] [])).original "x" = some (.vInt 99) :=
  ⟨rfl,
    C5_first_write_wins.1
      (Model.mk [("x", .aScalar)] [("x", .vInt 3)] [("x", .vInt 1)] ["x"] [])
      "x" "x" (.vInt 4) (.vInt 1)
      (Model.mk [("x", .aScalar)] [("x", .vInt 4)] [("x", .vInt 1)] ["x"] [])
      rfl rfl,
    C5_first_write_wins.2 c5cexModel
      (Model.mk [("x", .aScalar)] [("x", .vInt 2)] [("x", .vInt 99)] ["x"] [])
      "x" (.vInt 99) rfl⟩

theorem find?_pred {α : Type} {p : α → Bool} {l : List α} {b : α}
    (h : l.find? p = some b) : p b = true := List.find?_some h

/-- The mutation loop of `model_set_changed` can only fail with a
`KeyError`: the argument and declared-field validations have already
happened by the time it runs. -/
theorem setChangedGo_errors :
    ∀ (names : List String) (m : Model) (orig : Option PyValue) (e : SetChangedErr),
      setChangedGo m names orig = .error e → ∃ n, e = .keyErr n := by
  intro names
  induction names with
  | nil =>
    intro m orig e h
    have hgo : setChangedGo m [] orig = .ok m := rfl
    rw [hgo] at h
    cases h
  | cons n rest ih =>
    intro m orig e h
    cases orig with
    | none =>
      cases hd : alookup m.dict n with
      | none =>
        have hgo : setChangedGo m (n :: rest) none = .error (.keyErr n) := by
          rw [setChangedGo.eq_def]
          simp [hd]
        rw [hgo] at h
        injection h with h4
        exact ⟨n, h4.symm⟩
      | some cur =>
        have hgo : setChangedGo m (n :: rest) none
            = setChangedGo (Model.mk m.fields m.dict (aset m.original n cur)
                (setAdd m.selfChanged n) m.markers) rest none := by
          rw [setChangedGo.eq_def]
          simp [hd]
        rw [hgo] at h
        exact ih _ _ _ h
    | some o =>
      have hgo : setChangedGo m (n :: rest) (some o)
          = setChangedGo (Model.mk m.fields m.dict (aset m.original n o)
              (setAdd m.selfChanged n) m.markers) rest (some o) := rfl
      rw [hgo] at h
      exact ih _ _ _ h

/-- State used to refute C8 as stated. -/
def c8cexModel : Model := .mk [("x", .aScalar)] [("x", .vInt 1)] [] [] []

/-- C8 counterexample: `model_set_changed("x", "y", original=0)` with `y`
undeclared fails with the InvalidArguments error, not the FieldNotFound
error, so "fails with FieldNotFound iff some name is undeclared" is false
as stated (the InvalidArguments check runs first). -/
theorem C8_cex :
    modelSetChanged c8cexModel ["x", "y"] (some (.vInt 0))
      = .error .invalidArgs ∧
    (alookup c8cexModel.fields "y").isNone = true :=
  ⟨rfl, rfl⟩

/-- C8 (amended): the call fails with InvalidArguments iff an original
override is supplied with more than one field name; it fails with
FieldNotFound iff that condition does not hold and some given name is not a
declared field (InvalidArguments takes precedence).  Both checks run before
the mutation loop, so both errors are raised before any tracking state is
modified. -/
theorem C8_set_changed_errors :
    ∀ (m : Model) (names : List String) (orig : Option PyValue),
      ((modelSetChanged m names orig = .error .invalidArgs) ↔
        (orig.isSome = true ∧ 1 < names.length)) ∧
      ((∃ n, modelSetChanged m names orig = .error (.fieldNotFound n)) ↔
        (¬(orig.isSome = true ∧ 1 < names.length) ∧
          ∃ n ∈ names, (alookup m.fields n).isNone = true)) := by
  intro m names orig
  by_cases hc : (orig.isSome && decide (1 < names.length)) = true
  · rw [modelSetChanged, if_pos hc]
    simp only [Bool.and_eq_true, decide_eq_true_eq] at hc
    constructor
    · simp [hc]
    · constructor
      · rintro ⟨n, hn⟩
        cases hn
      · rintro ⟨hno, -⟩
        exact absurd hc hno
  · rw [modelSetChanged, if_neg hc]
    have hc' : ¬(orig.isSome = true ∧ 1 < names.length) := by
      intro hcon
      exact hc (by simp [hcon.1, hcon.2])
    cases hf : names.find? (fun n => (alookup m.fields n).isNone) with
    | some bad =>
      constructor
      · constructor
        · intro hcon
          exact absurd hcon (by simp)
        · intro hcon
          exact absurd hcon hc'
      · constructor
        · intro _
          have hbad := find?_pred hf
          exact ⟨hc', bad, List.mem_of_find?_eq_some hf, by simpa using hbad⟩
        · intro _
          exact ⟨bad, rfl⟩
    | none =>
      constructor
      · constructor
        · intro hcon
          rcases setChangedGo_errors names m orig _ hcon with ⟨n, hn⟩
          cases hn
        · intro hcon
          exact absurd hcon hc' 
      · constructor
        · rintro ⟨n, hn⟩
          rcases setChangedGo_errors names m orig _ hn with ⟨n', hn'⟩
          cases hn'
        · rintro ⟨-, n, hmem, hn⟩
          have := List.find?_eq_none.mp hf n hmem
          exact absurd hn (by simpa using this)

/-- A child instance with a changed field `id` (current value `a`, captured
original `b`). -/
def c3child (a b : Int) : Model :=
  .mk [("id", .aScalar)] [("id", .vInt a)] [("id", .vInt b)] ["id"] []

/-- A parent with a declared `List[C]` field named `sub` holding one
changed child. -/
def c3parentList (a b : Int) : Model :=
  .mk [("sub", .aList (.aModel true))] [("sub", .vList [.vModel (c3child a b)])]
    [] [] []

/-- A parent with a declared `Dict[str, C]` field named `sub` holding one
changed child under the key `"k"`. -/
def c3parentDict (a b : Int) : Model :=
  .mk [("sub", .aDict .aScalar (.aModel true))]
    [("sub", .vDict [(.vStr "k", .vModel (c3child a b))])] [] [] []

/-- C3: with a changed child of field `id` inside a list (or dict) field
`sub`, the parent's recursive changed set is exactly
`{"sub", "sub.0", "sub.0.id"}` (index as decimal text) — respectively
`{"sub", "sub.k", "sub.k.id"}` (key as text): every level along the path is
its own entry, not just the leaf. -/
theorem C3_recursive_paths :
    ∀ a b : Int,
      (mChangedRec (c3parentList a b)).map List.toFinset
        = some ({"sub", "sub.0", "sub.0.id"} : Finset String) ∧
      (mChangedRec (c3parentDict a b)).map List.toFinset
        = some ({"sub", "sub.k", "sub.k.id"} : Finset String) := by
  intro a b
  constructor
  · have h1 : mChangedRec (c3parentList a b) = some ["sub.0.id", "sub.0", "sub"] := by
      simp [mChangedRec, crGo, crItems, mHasChanged, mChangedFields, cfGo,
        fieldTriggers, vmChanged, anyChangedElem, alookup, c3parentList, c3child,
        enumSegs, setAdd, addDotted, truthy, isCDAnn, Model.dict, Model.fields,
        Model.selfChanged, Model.markers, pyKeyStr, List.enum] <;> decide
    rw [h1]
    exact congrArg some (by decide)
  · have h1 : mChangedRec (c3parentDict a b) = some ["sub.k.id", "sub.k", "sub"] := by
      simp [mChangedRec, crGo, crItems, mHasChanged, mChangedFields, cfGo,
        fieldTriggers, vmChanged, anyChangedElem, alookup, c3parentDict, c3child,
        enumSegs, setAdd, addDotted, truthy, isCDAnn, Model.dict, Model.fields,
        Model.selfChanged, Model.markers, pyKeyStr, List.enum] <;> decide
    rw [h1]
    exact congrArg some (by decide)

/-- A model as produced by `SomethingMultipleFields.model_construct(id=1)`:
two declared fields, only `id` present in `__dict__`. -/
def c4model : Model :=
  .mk [("id", .aScalar), ("foo", .aScalar)] [("id", .vInt 1)] [] [] []

/-- C4 evaluated at the failing input: `model_changed_fields` skips the
missing declared field `foo` and succeeds with the empty set, while
`model_changed_fields_recursive` reads `__dict__["foo"]` unguarded and
raises `KeyError` (modelled by `none`) — refuting "same base traversal";
the spec (and the sibling method's explicit `model_construct` support) make
the claim the intent and the missing guard a slip in the code. -/
theorem C4_recursive_raises_on_partial_instance :
    mChangedFields c4model = [] ∧ mChangedRec c4model = none := by
  constructor
  · simp [mChangedFields, cfGo, fieldTriggers, vmChanged, anyChangedElem,
      alookup, c4model, truthy, isCDAnn, Model.dict, Model.fields,
      Model.selfChanged]
  · simp [mChangedRec, crGo, alookup, c4model, Model.dict, Model.fields,
      Model.selfChanged]

/-- A changed child passed as a constructor argument. -/
def c2child : Model :=
  .mk [("id", .aScalar)] [("id", .vInt 2)] [("id", .vInt 1)] ["id"] []

/-- The parent constructed (validated path) with the changed child as the
value of its `sub` field. -/
def c2parent : Model := modelInit [("sub", .aModel true)] [("sub", .vModel c2child)]

/-- C2 counterexample: immediately after construction with an
already-changed trackable argument, `model_has_changed` is true and
`model_changed_fields` is `{"sub"}` (not empty), even though the parent's
own tracking state is freshly reset — refuting the claim's "including when
a constructor argument is itself a trackable object that already has
changes". -/
theorem C2_cex :
    mHasChanged c2child = true ∧
    c2parent.selfChanged = [] ∧ c2parent.original = [] ∧ c2parent.markers = [] ∧
    mHasChanged c2parent = true ∧ mChangedFields c2parent = ["sub"] := by
  refine ⟨?_, rfl, rfl, rfl, ?_, ?_⟩
  · simp [mHasChanged, c2child, Model.selfChanged, Model.markers]
  · simp [mHasChanged, mChangedFields, cfGo, fieldTriggers, vmChanged,
      anyChangedElem, alookup, c2parent, c2child, modelInit, truthy, isCDAnn,
      setAdd, Model.dict, Model.fields, Model.selfChanged, Model.markers] <;> decide
  · simp [mHasChanged, mChangedFields, cfGo, fieldTriggers, vmChanged,
      anyChangedElem, alookup, c2parent, c2child, modelInit, truthy, isCDAnn,
      setAdd, Model.dict, Model.fields, Model.selfChanged, Model.markers] <;> decide

theorem alookup_restoreDictVals (d : List (String × PyValue)) (n : String) :
    alookup (restoreDictVals d) n = (alookup d n).map modelRestoreValue := by
  induction d with
  | nil => simp [restoreDictVals, alookup]
  | cons kv rest ih =>
    obtain ⟨k, w⟩ := kv
    by_cases hk : k = n
    · subst hk
      simp [restoreDictVals, alookup]
    · simp [restoreDictVals, alookup, hk, ih]

/-- The concrete restoration scenario of the spec: `id=1` was mutated to
`id=2`. -/
def c6model : Model :=
  .mk [("id", .aScalar)] [("id", .vInt 2)] [("id", .vInt 1)] ["id"] []

/-- C6: `model_restore_original` builds a new instance whose `__dict__` is
the recursively restored current values overridden by every
`model_original` entry, with freshly reset tracking state; the source
instance is not touched (the embedding is a pure function of it — the
source performs no write to `self`): concretely the restored instance has
`id=1` while the source still holds `id=2` and still reports
`model_has_changed`. -/
theorem C6_restore_original :
    (∀ (m : Model) (n : String) (w : PyValue),
        alookup m.original n = some w →
        alookup (modelRestoreOriginal m).dict n = some w) ∧
    (∀ (m : Model) (n : String),
        alookup m.original n = none →
        alookup (modelRestoreOriginal m).dict n
          = (alookup m.dict n).map modelRestoreValue) ∧
    (∀ m : Model, (modelRestoreOriginal m).original = [] ∧
        (modelRestoreOriginal m).selfChanged = [] ∧
        (modelRestoreOriginal m).markers = []) ∧
    ((modelRestoreOriginal c6model).dict = [("id", .vInt 1)] ∧
      alookup c6model.dict "id" = some (.vInt 2) ∧
      mHasChanged c6model = true) := by
  have hdict : ∀ m : Model, (modelRestoreOriginal m).dict
      = dictMerge (restoreDictVals m.dict) m.original := by
    intro m
    simp [modelRestoreOriginal, Model.dict]
  refine ⟨?_, ?_, ?_, ?_, ?_, ?_⟩
  · intro m n w h
    rw [hdict, alookup_dictMerge, alookup_restoreDictVals]
    cases had : alookup m.dict n with
    | none => simpa using h
    | some w' => simp [h]
  · intro m n h
    rw [hdict, alookup_dictMerge, alookup_restoreDictVals]
    cases had : alookup m.dict n with
    | none => simpa using h
    | some w' => simp [h]
  · intro m
    simp [modelRestoreOriginal, Model.original, Model.selfChanged, Model.markers]
  · rw [hdict]
    have h2 : restoreDictVals c6model.dict = [("id", .vInt 2)] := by
      simp [restoreDictVals, modelRestoreValue, c6model, Model.dict]
    rw [h2]
    simp [dictMerge, alookup, c6model, Model.original]
  · rfl
  · simp [mHasChanged, c6model, Model.selfChanged, Model.markers]

/-- C6 witness: the override part applied at the concrete scenario — the
restored instance holds the captured original `id=1`. -/
theorem C6_w : alookup (modelRestoreOriginal c6model).dict "id" = some (.vInt 1) :=
  C6_restore_original.1 c6model "id" (.vInt 1) rfl

/-- The tracking invariant of C9: every field with a stored original value
is also marked self-changed. -/
def OrigSub (m : Model) : Prop := ∀ kv ∈ m.original, kv.1 ∈ m.selfChanged

/-- Full characterisation of a successful attribute write's effect on the
tracking collections: either both are untouched (suppressed write), or the
name is added to `model_self_changed_fields` while `model_original` either
stays or receives the captured prior under that same name. -/
theorem setattrFn_char :
    ∀ (m : Model) (name : String) (v : PyValue) (m' : Model),
      setattrFn m name v = some m' →
      (m'.original = m.original ∧ m'.selfChanged = m.selfChanged) ∨
      (m'.selfChanged = setAdd m.selfChanged name ∧
        (m'.original = m.original ∨
          ∃ prior, m'.original = aset m.original name prior)) := by
  intro m name v m' h
  by_cases h1 : (alookup m.fields name).isNone = true
  · rw [setattrFn, if_pos h1] at h
    cases h
  · by_cases h2 : (alookup m.original name).isNone = true
    · cases h3 : alookup m.dict name with
      | none =>
        rw [setattrFn, if_neg h1] at h
        simp [h2, h3] at h
      | some prior =>
        rw [setattrFn, if_neg h1] at h
        simp only [h2, h3, if_true, if_pos] at h
        split at h
        · injection h with h4
          subst h4
          left
          simp [Model.original, Model.selfChanged]
        · injection h with h4
          subst h4
          right
          refine ⟨by simp [Model.selfChanged], Or.inr ⟨prior, by simp [Model.original]⟩⟩
    · have h2' : (alookup m.original name).isNone = false := by
        revert h2
        cases (alookup m.original name).isNone <;> simp
      rw [setattrFn, if_neg h1] at h
      simp only [h2', Bool.false_eq_true, if_false] at h
      split at h
      · injection h with h4
        subst h4
        left
        simp [Model.original, Model.selfChanged]
      · injection h with h4
        subst h4
        right
        exact ⟨by simp [Model.selfChanged], Or.inl (by simp [Model.original])⟩

/-- The mutation loop of `model_set_changed` preserves the C9 invariant. -/
theorem setChangedGo_inv :
    ∀ (names : List String) (m : Model) (orig : Option PyValue) (m' : Model),
      OrigSub m → setChangedGo m names orig = .ok m' → OrigSub m' := by
  intro names
  induction names with
  | nil =>
    intro m orig m' hm h
    have hgo : setChangedGo m [] orig = .ok m := rfl
    rw [hgo] at h
    injection h with h4
    subst h4
    exact hm
  | cons n rest ih =>
    intro m orig m' hm h
    have hstep : ∀ w : PyValue, OrigSub (Model.mk m.fields m.dict
        (aset m.original n w) (setAdd m.selfChanged n) m.markers) := by
      intro w kv hkv
      simp only [Model.original] at hkv
      rcases mem_aset hkv with hkv' | hkv'
      · simp only [Model.selfChanged]
        exact mem_setAdd.mpr (Or.inl (hm kv hkv'))
      · simp only [Model.selfChanged]
        exact mem_setAdd.mpr (Or.inr (by rw [hkv']))
    cases orig with
    | none =>
      cases hd : alookup m.dict n with
      | none =>
        have hgo : setChangedGo m (n :: rest) none = .error (.keyErr n) := by
          rw [setChangedGo.eq_def]
          simp [hd]
        rw [hgo] at h
        cases h
      | some cur =>
        have hgo : setChangedGo m (n :: rest) none
            = setChangedGo (Model.mk m.fields m.dict (aset m.original n cur)
                (setAdd m.selfChanged n) m.markers) rest none := by
          rw [setChangedGo.eq_def]
          simp [hd]
        rw [hgo] at h
        exact ih _ _ _ (hstep cur) h
    | some o =>
      have hgo : setChangedGo m (n :: rest) (some o)
          = setChangedGo (Model.mk m.fields m.dict (aset m.original n o)
              (setAdd m.selfChanged n) m.markers) rest (some o) := rfl
      rw [hgo] at h
      exact ih _ _ _ (hstep o) h

/-- C9: every operation of the tracking core — construction (validated and
not), reset, attribute write, explicit mark-changed, marker set/unset,
copy/deepcopy — preserves the invariant that every key of `model_original`
is in `model_self_changed_fields`. -/
theorem C9_invariant_preserved :
    (∀ (fs : List (String × Ann)) (kw : List (String × PyValue)),
        OrigSub (modelInit fs kw)) ∧
    (∀ (fs : List (String × Ann)) (vs : List (String × PyValue)),
        OrigSub (modelConstruct fs vs)) ∧
    (∀ m : Model, OrigSub (modelResetChanged m)) ∧
    (∀ (m : Model) (name : String) (v : PyValue) (m' : Model),
        OrigSub m → setattrFn m name v = some m' → OrigSub m') ∧
    (∀ (m : Model) (names : List String) (orig : Option PyValue) (m' : Model),
        OrigSub m → modelSetChanged m names orig = .ok m' → OrigSub m') ∧
    (∀ (m : Model) (t : String), OrigSub m → OrigSub (modelMarkChanged m t)) ∧
    (∀ (m : Model) (t : String), OrigSub m → OrigSub (modelUnmarkChanged m t)) ∧
    (∀ m : Model, OrigSub m → OrigSub (copyFn m)) ∧
    (∀ m : Model, OrigSub m → OrigSub (deepcopyFn m)) := by
  refine ⟨?_, ?_, ?_, ?_, ?_, ?_, ?_, ?_, ?_⟩
  · intro fs kw kv hkv
    simp [modelInit, Model.original] at hkv
  · intro fs vs kv hkv
    simp [modelConstruct, Model.original] at hkv
  · intro m kv hkv
    simp [modelResetChanged, Model.original] at hkv
  · intro m name v m' hm h
    rcases setattrFn_char m name v m' h with ⟨ho, hs⟩ | ⟨hs, ho⟩
    · intro kv hkv
      rw [hs]
      exact hm kv (ho ▸ hkv)
    · intro kv hkv
      rw [hs]
      rcases ho with ho | ⟨prior, ho⟩
      · exact mem_setAdd.mpr (Or.inl (hm kv (ho ▸ hkv)))
      · rw [ho] at hkv
        rcases mem_aset hkv with hkv' | hkv'
        · exact mem_setAdd.mpr (Or.inl (hm kv hkv'))
        · exact mem_setAdd.mpr (Or.inr (by rw [hkv']))
  · intro m names orig m' hm h
    rw [modelSetChanged] at h
    split at h
    · cases h
    · split at h
      · cases h
      · exact setChangedGo_inv names m orig m' hm h
  · intro m t hm kv hkv
    simp only [modelMarkChanged, Model.original] at hkv
    simpa [modelMarkChanged, Model.selfChanged] using hm kv hkv
  · intro m t hm kv hkv
    simp only [modelUnmarkChanged, Model.original] at hkv
    simpa [modelUnmarkChanged, Model.selfChanged] using hm kv hkv
  · intro m hm kv hkv
    simp only [copyFn, Model.original] at hkv
    simpa [copyFn, Model.selfChanged] using hm kv hkv
  · intro m hm kv hkv
    simp only [deepcopyFn, Model.original] at hkv
    simpa [deepcopyFn, Model.selfChanged] using hm kv hkv

/-- C9 witness: the attribute-write part applied at a concrete state
satisfying the invariant; the write's result (computed by `rfl`) satisfies
it as well. -/
theorem C9_w :
    OrigSub (Model.mk [("x", .aScalar)] [("x", .vInt 2)]
      [("x", .vInt 1)] ["x"] []) :=
  C9_invariant_preserved.2.2.2.1
    (Model.mk [("x", .aScalar)] [("x", .vInt 1)] [] [] []) "x" (.vInt 2)
    (Model.mk [("x", .aScalar)] [("x", .vInt 2)] [("x", .vInt 1)] ["x"] [])
    (by intro kv hkv; simp [Model.original] at hkv) rfl

mutual
/-- No trackable object with changes occurs anywhere inside a value (the
hypothesis under which fresh construction really yields a change-free
instance). -/
def cleanVal : PyValue → Bool
  | .vNone => true
  | .vInt _ => true
  | .vStr _ => true
  | .vBool _ => true
  | .vOpaque _ => true
  | .vList xs => cleanList xs
  | .vTuple xs => cleanList xs
  | .vSet xs => cleanList xs
  | .vDict xs => cleanPairs xs
  | .vModel m => cleanModel m

def cleanModel : Model → Bool
  | .mk _ d _ sc ms => sc.isEmpty && ms.isEmpty && cleanDict d

def cleanList : List PyValue → Bool
  | [] => true
  | x :: rest => cleanVal x && cleanList rest

def cleanPairs : List (PyValue × PyValue) → Bool
  | [] => true
  | kv :: rest => (cleanVal kv.1 && cleanVal kv.2) && cleanPairs rest

def cleanDict : List (String × PyValue) → Bool
  | [] => true
  | kv :: rest => cleanVal kv.2 && cleanDict rest
end

theorem cleanDict_lookup {d : List (String × PyValue)} {n : String} {v : PyValue}
    (hd : cleanDict d = true) (hl : alookup d n = some v) : cleanVal v = true := by
  induction d with
  | nil => simp [alookup] at hl
  | cons kv rest ih =>
    obtain ⟨k, w⟩ := kv
    simp only [cleanDict, Bool.and_eq_true] at hd
    by_cases hk : k = n
    · subst hk
      simp [alookup] at hl
      exact hl ▸ hd.1
    · simp [alookup, hk] at hl
      exact ih hd.2 hl

theorem cleanPairs_map_snd {xs : List (PyValue × PyValue)}
    (h : cleanPairs xs = true) : cleanList (xs.map (fun p => p.2)) = true := by
  induction xs with
  | nil => simp [cleanList]
  | cons kv rest ih =>
    simp only [cleanPairs, Bool.and_eq_true] at h
    simp only [List.map_cons, cleanList, Bool.and_eq_true]
    exact ⟨h.1.2, ih h.2⟩

/-- The field loop of `model_changed_fields` adds nothing when no field
value triggers the changed scan. -/
theorem cfGo_eq_acc (d : List (String × PyValue)) (fs : List (String × Ann))
    (acc : List String)
    (H : ∀ (a : Ann) (n : String) (fv : PyValue),
      alookup d n = some fv → fieldTriggers a fv = false) :
    cfGo d fs acc = acc := by
  induction fs generalizing acc with
  | nil => simp [cfGo]
  | cons p rest ih =>
    obtain ⟨name, a⟩ := p
    rw [cfGo]
    split
    · exact ih acc
    · next fv heq =>
      rw [H a name fv heq]
      simp only [Bool.false_eq_true, if_false]
      exact ih acc

theorem vmChanged_false_of_clean (k : Nat)
    (ih : ∀ m : Model, msize m < k → cleanModel m = true →
      mChangedFields m = [] ∧ mHasChanged m = false)
    (v : PyValue) (hv : cleanVal v = true) (hs : psize v ≤ k) :
    vmChanged v = false := by
  cases v with
  | vModel cm =>
    have h1 : cleanModel cm = true := by simpa [cleanVal] using hv
    have h2 : msize cm < k := by
      have := psize_vModel cm
      omega
    have h3 := (ih cm h2 h1).2
    simp [vmChanged, h3]
  | vNone => simp [vmChanged]
  | vInt n => simp [vmChanged]
  | vStr t => simp [vmChanged]
  | vBool b => simp [vmChanged]
  | vOpaque i => simp [vmChanged]
  | vList xs => simp [vmChanged]
  | vTuple xs => simp [vmChanged]
  | vSet xs => simp [vmChanged]
  | vDict xs => simp [vmChanged]

theorem anyChangedElem_false (k : Nat)
    (ih : ∀ m : Model, msize m < k → cleanModel m = true →
      mChangedFields m = [] ∧ mHasChanged m = false)
    (xs : List PyValue) (hxs : cleanList xs = true) (hs : plsize xs ≤ k) :
    anyChangedElem xs = false := by
  induction xs with
  | nil => simp [anyChangedElem]
  | cons x rest ihl =>
    simp only [cleanList, Bool.and_eq_true] at hxs
    have hc := plsize_cons x rest
    have h1 : vmChanged x = false :=
      vmChanged_false_of_clean k ih x hxs.1 (by omega)
    have h2 : anyChangedElem rest = false := ihl hxs.2 (by omega)
    simp [anyChangedElem, h1, h2]

theorem fieldTriggers_false (k : Nat)
    (ih : ∀ m : Model, msize m < k → cleanModel m = true →
      mChangedFields m = [] ∧ mHasChanged m = false)
    (a : Ann) (fv : PyValue) (hfv : cleanVal fv = true) (hs : psize fv ≤ k) :
    fieldTriggers a fv = false := by
  have h1 : vmChanged fv = false := vmChanged_false_of_clean k ih fv hfv hs
  cases fv with
  | vList xs =>
    have hcl : cleanList xs = true := by simpa [cleanVal] using hfv
    have hsz := psize_vList xs
    have h2 := anyChangedElem_false k ih xs hcl (by omega)
    simp [fieldTriggers, h1, h2]
  | vTuple xs =>
    have hcl : cleanList xs = true := by simpa [cleanVal] using hfv
    have hsz := psize_vTuple xs
    have h2 := anyChangedElem_false k ih xs hcl (by omega)
    simp [fieldTriggers, h1, h2]
  | vDict xs =>
    have hcp : cleanPairs xs = true := by simpa [cleanVal] using hfv
    have hcl := cleanPairs_map_snd hcp
    have hsz := psize_vDict xs
    have hle := plsize_map_snd_le xs
    have h2 := anyChangedElem_false k ih (xs.map (fun p => p.2)) hcl (by omega)
    simp [fieldTriggers, h1, h2]
  | vModel cm => simp [fieldTriggers, h1]
  | vNone => simp [fieldTriggers, h1]
  | vInt n => simp [fieldTriggers, h1]
  | vStr t => simp [fieldTriggers, h1]
  | vBool b => simp [fieldTriggers, h1]
  | vOpaque i => simp [fieldTriggers, h1]
  | vSet xs => simp [fieldTriggers, h1]

/-- A model whose own tracking state is empty and whose `__dict__` values
contain no changed trackables reports no changes. -/
theorem clean_main :
    ∀ (k : Nat) (m : Model), msize m < k → cleanModel m = true →
      mChangedFields m = [] ∧ mHasChanged m = false := by
  intro k
  induction k using Nat.strong_induction_on with
  | _ k ihk =>
    intro m hk hc
    have ih0 : ∀ m' : Model, msize m' < msize m → cleanModel m' = true →
        mChangedFields m' = [] ∧ mHasChanged m' = false := by
      intro m' hm' hc'
      exact ihk (msize m) hk m' hm' hc'
    cases m with
    | mk f d o sc ms =>
      simp only [cleanModel, Bool.and_eq_true] at hc
      obtain ⟨⟨hsc, hms⟩, hcd⟩ := hc
      have hsc' : sc = [] := by simpa using hsc
      have hms' : ms = [] := by simpa using hms
      subst hsc'
      subst hms'
      have hcf : mChangedFields (Model.mk f d o [] []) = [] := by
        have hunf : mChangedFields (Model.mk f d o [] []) = cfGo d f [] := by
          simp [mChangedFields, Model.dict, Model.fields, Model.selfChanged]
        rw [hunf]
        apply cfGo_eq_acc
        intro a n fv hl
        have hfv := cleanDict_lookup hcd hl
        have hp := alookup_psize hl
        have hd2 : spsize d < msize (Model.mk f d o [] []) := by
          simp [msize]
        exact fieldTriggers_false (msize (Model.mk f d o [] [])) ih0 a fv hfv
          (by omega)
      refine ⟨hcf, ?_⟩
      rw [mHasChanged]
      simp [Model.selfChanged, Model.markers, hcf]

/-- C2 counterexample forces a proviso; amended claim: for every trackable
instance immediately after construction — validated path or
`model_construct` — the three own tracking collections are empty; and
provided no constructor argument value contains an already-changed
trackable object, `model_has_changed` is false and `model_changed_fields`
is empty. -/
theorem C2_fresh_construction :
    ∀ (fs : List (String × Ann)) (kw : List (String × PyValue)),
      (modelInit fs kw).selfChanged = [] ∧ (modelInit fs kw).original = [] ∧
      (modelInit fs kw).markers = [] ∧
      (modelConstruct fs kw).selfChanged = [] ∧
      (modelConstruct fs kw).original = [] ∧
      (modelConstruct fs kw).markers = [] ∧
      (cleanDict kw = true →
        mHasChanged (modelInit fs kw) = false ∧
        mChangedFields (modelInit fs kw) = [] ∧
        mHasChanged (modelConstruct fs kw) = false ∧
        mChangedFields (modelConstruct fs kw) = []) := by
  intro fs kw
  refine ⟨rfl, rfl, rfl, rfl, rfl, rfl, ?_⟩
  intro hkw
  have hc1 : cleanModel (modelInit fs kw) = true := by
    simp [modelInit, cleanModel, hkw]
  have hc2 : cleanModel (modelConstruct fs kw) = true := by
    simp [modelConstruct, cleanModel, hkw]
  have h1 := clean_main (msize (modelInit fs kw) + 1) (modelInit fs kw)
    (by omega) hc1
  have h2 := clean_main (msize (modelConstruct fs kw) + 1) (modelConstruct fs kw)
    (by omega) hc2
  exact ⟨h1.2, h1.1, h2.2, h2.1⟩

/-- C2 witness: the amended theorem applied to a parent constructed with a
fresh (change-free) child argument. -/
theorem C2_w :
    mHasChanged (modelInit [("sub", .aModel true)]
      [("sub", .vModel (Model.mk [("id", .aScalar)] [("id", .vInt 1)] [] [] []))])
      = false :=
  (C2_fresh_construction [("sub", .aModel true)]
    [("sub", .vModel (Model.mk [("id", .aScalar)] [("id", .vInt 1)] [] [] []))]
    |>.2.2.2.2.2.2 (by decide)).1

end PydanticCD
